import Mathlib

/-!
# Verification of the finance tracker's core logic

A shallow embedding of `finance_app.py`: the currency helpers
(`get_exchange_rates`, `convert_amount`, `format_amount`), the ledger and
goal operations wired to the UI buttons (add transaction, edit, set budget,
contribute), and JSON export/import of the whole session state.

Modelling conventions:
* Python floats are modelled as `ℚ` (the app only adds, negates and
  multiplies user-entered decimals, so exact rationals are a faithful model
  of the values' algebra; no claim here depends on binary rounding).
* The remote rate fetch is a parameter `fetch : String → Option Rates`:
  `some r` models a successful HTTP request whose JSON body carried the
  mapping `r` under the key "rates", `none` models any network or parse
  failure (the bare `except:` in the source catches every such reason).
* `st.error` / `st.success` side effects are modelled, where a claim
  mentions them, as a `Bool` component of the result ("a message was shown").
* Python dicts that the code builds itself (fixed small literals) are
  association lists; `d.get(k, default)` is `dictGet`.
-/

namespace FinanceApp

/-- `CURRENCIES` from the source: the supported currency codes, in order. -/
def CURRENCIES : List String :=
  ["RUB", "USD", "EUR", "CNY", "GBP", "VND", "EGP", "TRY", "GEL"]

/-- `CURRENCY_SYMBOLS` from the source. -/
def CURRENCY_SYMBOLS : List (String × String) :=
  [("RUB", "₽"), ("USD", "$"), ("EUR", "€"), ("CNY", "¥"), ("GBP", "£"),
   ("VND", "₫"), ("EGP", "E£"), ("TRY", "₺"), ("GEL", "₾")]

/-- Python's `d.get(k, default)` on an association list. -/
def dictGet {α : Type} (m : List (String × α)) (k : String) (d : α) : α :=
  match m.lookup k with
  | some v => v
  | none => d

/-- A rates mapping: currency code to multiplicative rate. -/
abbrev Rates := List (String × ℚ)

/-- `get_exchange_rates(base_currency)`.  The network interaction
(`requests.get`, `response.json()`, `data['rates']`) is the parameter
`fetch`; `none` stands for any exception on that path.  The second
component records whether `st.error` ran (the failure was reported to the
user); in both branches the function returns normally.  On failure the
source returns
`{currency: 1.0 if currency == base_currency else 0.0 for currency in CURRENCIES}`. -/
def get_exchange_rates (fetch : String → Option Rates) (base_currency : String) :
    Rates × Bool :=
  match fetch base_currency with
  | some rates => (rates, false)
  | none => (CURRENCIES.map fun c => (c, if c = base_currency then (1 : ℚ) else 0), true)

/-- `convert_amount(amount, from_currency, to_currency)`:
returns `amount` unchanged when the currencies coincide (before any fetch),
else `amount * rates.get(to_currency, 0)`. -/
def convert_amount (fetch : String → Option Rates) (amount : ℚ)
    (from_currency to_currency : String) : ℚ :=
  if from_currency = to_currency then amount
  else amount * dictGet (get_exchange_rates fetch from_currency).1 to_currency 0

/-- `convert_amount` again, with the number of `get_exchange_rates`
invocations the executed branch performs made explicit (the early return
performs none, the general branch exactly one). -/
def convert_amount_traced (fetch : String → Option Rates) (amount : ℚ)
    (from_currency to_currency : String) : ℚ × Nat :=
  if from_currency = to_currency then (amount, 0)
  else (amount * dictGet (get_exchange_rates fetch from_currency).1 to_currency 0, 1)

/-! ## Formatter (`format_amount`)

`format_amount(amount, currency)` renders `f"{int(amount):,} {symbol}"` for
the no-subunit currency (the source's configured list is exactly `VND`) and
`f"{amount:,.2f} {symbol}"` otherwise.  The two Python format specs are
embedded below: decimal digits, a `,` every three integer digits from the
right, truncation toward zero for `int(...)`, and rounding to two fractional
digits for `.2f` (Python rounds ties on the underlying double to even; the
model rounds ties in a fixed direction — no claim here depends on the
direction of ties, only on the digit shape of the output). -/

/-- The decimal digit character for `d < 10`. -/
def pyDigitChar (d : Nat) : Char := Char.ofNat (48 + d)

/-- Decimal digits of `n`, least significant first (never empty). -/
def natDigits (n : Nat) : List Nat :=
  if h : n < 10 then [n] else n % 10 :: natDigits (n / 10)
decreasing_by exact Nat.div_lt_self (by omega) (by omega)

/-- Insert a `,` after every three digits, counting from the least
significant end (the input list is least-significant-first). -/
def group3 : List Char → List Char
  | a :: b :: c :: d :: rest => a :: b :: c :: ',' :: group3 (d :: rest)
  | l => l

/-- `f"{n:,}"` for a natural number: thousands-grouped decimal digits. -/
def groupThousands (n : Nat) : String :=
  String.mk (group3 ((natDigits n).map pyDigitChar)).reverse

/-- Python's `int(...)` on a finite number: truncation toward zero. -/
def pyInt (q : ℚ) : Int := q.num.tdiv (q.den : ℤ)

/-- `f"{i:,}"` for a (possibly negative) integer. -/
def intComma (i : Int) : String :=
  (if i < 0 then "-" else "") ++ groupThousands i.natAbs

/-- Exactly two decimal digit characters for `n < 100` (zero padded). -/
def twoFrac (n : Nat) : String := String.mk [pyDigitChar (n / 10), pyDigitChar (n % 10)]

/-- `f"{q:,.2f}"`: sign, thousands-grouped integer part, `.`, exactly two
fractional digits of the value rounded to hundredths. -/
def fixed2 (q : ℚ) : String :=
  let n : Nat := (round (|q| * 100) : ℤ).toNat
  (if q < 0 then "-" else "") ++ groupThousands (n / 100) ++ "." ++ twoFrac (n % 100)

/-- `format_amount(amount, currency)` with the currency given explicitly
(the source's `currency=None` default fills in the session currency before
the logic below runs). -/
def format_amount (amount : ℚ) (currency : String) : String :=
  let symbol := dictGet CURRENCY_SYMBOLS currency currency
  if currency = "VND" then intComma (pyInt amount) ++ " " ++ symbol
  else fixed2 amount ++ " " ++ symbol

/-! ## Ledger and goal stores

The transactions DataFrame's rows, with the source's column set
`['Дата', 'Тип', 'Категория', 'Сумма', 'Описание', 'Бюджет', 'Валюта']`.
Dates are opaque timestamps modelled as `Nat`.  Numeric-to-text rendering
inside description strings (Python f-string interpolation of a float) is
modelled with `toString` on `ℚ`; no claim depends on that rendering. -/

structure Txn where
  date : Nat
  typ : String
  category : String
  amount : ℚ
  description : String
  budget : ℚ
  currency : String
deriving DecidableEq, Repr

/-- A savings goal, as built by the "Добавить цель" handler. -/
structure Goal where
  name : String
  target_amount : ℚ
  deadline : String
  current_amount : ℚ
deriving DecidableEq, Repr

/-- Overwrite the element at a position with `f` of it; out-of-range
positions leave the list unchanged (the UI only produces in-range ones). -/
def listModify {α : Type} (f : α → α) : Nat → List α → List α
  | _, [] => []
  | 0, x :: xs => f x :: xs
  | n + 1, x :: xs => x :: listModify f n xs

/-- The "Добавить транзакцию" handler: convert the entered amount into the
default currency when needed, apply the sign from the chosen kind
(`'Доход'` income positive, else negative), tag the original amount and
currency onto the description for converted entries, and append one row
with `Бюджет = 0` and the default currency. -/
def add_transaction (fetch : String → Option Rates) (default_currency : String)
    (date : Nat) (trans_type category currency : String) (amount : ℚ)
    (description : String) (txns : List Txn) : List Txn :=
  let final_amount :=
    if currency = default_currency then amount
    else convert_amount fetch amount currency default_currency
  let desc :=
    if currency = default_currency then description
    else description ++ " (" ++ toString amount ++ " " ++ currency ++ ")"
  txns ++ [{ date := date, typ := trans_type, category := category,
             amount := if trans_type = "Доход" then final_amount else -final_amount,
             description := desc, budget := 0, currency := default_currency }]

/-- The "Установить бюджет" handler: `mask` selects every row whose
`Категория` equals the chosen category; when no row matches, one synthetic
row dated now with `Сумма = 0` and `Бюджет = budget_amount` is appended,
otherwise the `Бюджет` field of every matching row is overwritten. -/
def set_budget (now : Nat) (default_currency : String) (category_budget : String)
    (budget_amount : ℚ) (txns : List Txn) : List Txn :=
  if txns.any (fun t => t.category == category_budget) then
    txns.map fun t =>
      if t.category == category_budget then { t with budget := budget_amount } else t
  else
    txns ++ [{ date := now, typ := "Расход", category := category_budget,
               amount := 0, description := "Установка бюджета",
               budget := budget_amount, currency := default_currency }]

/-- The "Сохранить изменения" handler for the row at `index`: recompute the
signed amount from the edited kind and (converted) amount, rebuild the
description, stamp the default currency, and overwrite those fields in
place.  `Бюджет` is not among the edited keys, so it is kept. -/
def save_edited_transaction (fetch : String → Option Rates) (default_currency : String)
    (index : Nat) (edited_date : Nat) (edited_type edited_category edited_currency : String)
    (edited_amount : ℚ) (edited_description : String) (txns : List Txn) : List Txn :=
  let final_amount :=
    if edited_currency = default_currency then edited_amount
    else convert_amount fetch edited_amount edited_currency default_currency
  let desc :=
    if edited_currency = default_currency then edited_description
    else edited_description ++ " (" ++ toString edited_amount ++ " " ++ edited_currency ++ ")"
  listModify
    (fun t => { t with date := edited_date, typ := edited_type,
                       category := edited_category,
                       amount := if edited_type = "Доход" then final_amount else -final_amount,
                       description := desc, currency := default_currency })
    index txns

/-- The "Внести" handler for goal `idx`: bump that goal's
`current_amount` by the contribution and append one matching expense row to
the ledger, categorised as savings (`'Накопления'`). -/
def contribute (now : Nat) (default_currency : String) (idx : Nat)
    (contribution : ℚ) (goals : List Goal) (txns : List Txn) :
    List Goal × List Txn :=
  let goals2 := listModify (fun g => { g with current_amount := g.current_amount + contribution }) idx goals
  let gname := match goals.get? idx with
    | some g => g.name
    | none => ""
  (goals2,
   txns ++ [{ date := now, typ := "Расход", category := "Накопления",
              amount := -contribution, description := "Вклад в цель: " ++ gname,
              budget := 0, currency := default_currency }])

/-- The non-strict sign rule a ledger row can actually maintain: income
rows carry a non-negative signed amount, expense rows a non-positive one. -/
def signOk (t : Txn) : Prop :=
  (t.typ = "Доход" → 0 ≤ t.amount) ∧ (t.typ = "Расход" → t.amount ≤ 0)

/-- Every rate table the fetch environment can return has non-negative
entries (real exchange-rate feeds return non-negative floats). -/
def ratesNonneg (fetch : String → Option Rates) : Prop :=
  ∀ base r, fetch base = some r → ∀ p ∈ r, (0 : ℚ) ≤ p.2

/-! ## Session values and JSON export / import

`import_all_data` stores whatever `json.loads` produced, with no shape
validation, so the three session slots are modelled as dynamic Python
values.  `timestamp t` is a `pd.Timestamp` object (not JSON-native);
`timestampStr t` is its string rendering `str(timestamp t)` — Python's
`str` is injective on timestamps and `pd.to_datetime` parses it back, so
the string is modelled by the timestamp it denotes. -/

inductive PyVal where
  | null
  | bool (b : Bool)
  | num (q : ℚ)
  | str (s : String)
  | timestamp (t : Nat)
  | timestampStr (t : Nat)
  | list (xs : List PyVal)
  | dict (fields : List (String × PyVal))

/-- `v[k]` for a Python value: `some` exactly when `v` is a dict holding
`k` (dicts produced by `json.loads` have unique keys); every failure mode
(`KeyError`, `TypeError` on non-dict subscripting) is `none`. -/
def dictGetPy (v : PyVal) (k : String) : Option PyVal :=
  match v with
  | .dict fields => fields.lookup k
  | _ => none

/-- The composite `json.loads(json.dumps(v, default=str))` at the value
level: every JSON-native constituent round-trips exactly (Python
serialises and re-reads numbers and strings losslessly), and every
`pd.Timestamp` — the only non-native object in session data — is replaced
by its string rendering via `default=str`. -/
def jsonCycle : PyVal → PyVal
  | .timestamp t => .timestampStr t
  | .list xs => .list (xs.attach.map fun x => jsonCycle x.1)
  | .dict fs => .dict (fs.attach.map fun p => (p.1.1, jsonCycle p.1.2))
  | v => v
decreasing_by
  · have := List.sizeOf_lt_of_mem x.2
    simp_wf
    omega
  · have h1 := List.sizeOf_lt_of_mem p.2
    have h2 : sizeOf p.1.2 < sizeOf p.1 := by
      obtain ⟨⟨a, b⟩, hp⟩ := p
      simp
    simp_wf
    omega

/-- How the application reads stored values back: `load_data` runs
`pd.to_datetime` over the date column, turning each date string back into
the timestamp it denotes; everything else is read as stored.  Two states
that agree after this normalisation are observably identical. -/
def normalizeDates : PyVal → PyVal
  | .timestampStr t => .timestamp t
  | .list xs => .list (xs.attach.map fun x => normalizeDates x.1)
  | .dict fs => .dict (fs.attach.map fun p => (p.1.1, normalizeDates p.1.2))
  | v => v
decreasing_by
  · have := List.sizeOf_lt_of_mem x.2
    simp_wf
    omega
  · have h1 := List.sizeOf_lt_of_mem p.2
    have h2 : sizeOf p.1.2 < sizeOf p.1 := by
      obtain ⟨⟨a, b⟩, hp⟩ := p
      simp
    simp_wf
    omega

/-- The session slots export/import touch: `st.session_state.transactions_data`,
`st.session_state.goals_data`, `st.session_state.default_currency`. -/
structure SessionState where
  transactions_data : PyVal
  goals_data : PyVal
  default_currency : PyVal

/-- `export_all_data()`: the Python dict handed to `json.dumps`
(serialisation itself is `jsonCycle` composed with parsing on the import
side). -/
def export_all_data (s : SessionState) : PyVal :=
  .dict [("transactions", s.transactions_data),
         ("goals", s.goals_data),
         ("settings", .dict [("default_currency", s.default_currency)])]

/-- `import_all_data(json_str)`, taking the result of `json.loads`
(`none` = the parse raised).  The `try` body assigns the three slots in
order and any raised lookup aborts the rest, returning `False` — so the
assignments already executed persist. -/
def import_all_data (parsed : Option PyVal) (s : SessionState) : SessionState × Bool :=
  match parsed with
  | none => (s, false)
  | some data =>
    match dictGetPy data "transactions" with
    | none => (s, false)
    | some t =>
      let s1 : SessionState := { s with transactions_data := t }
      match dictGetPy data "goals" with
      | none => (s1, false)
      | some g =>
        let s2 : SessionState := { s1 with goals_data := g }
        match dictGetPy data "settings" with
        | none => (s2, false)
        | some sett =>
          match dictGetPy sett "default_currency" with
          | none => (s2, false)
          | some dc => ({ s2 with default_currency := dc }, true)

/-! ### Concrete inputs used by counterexamples and witnesses -/

/-- A ledger holding one ordinary expense for `Продукты` (no budget row). -/
def cexLedgerOne : List Txn :=
  [{ date := 0, typ := "Расход", category := "Продукты", amount := -200,
     description := "x", budget := 0, currency := "RUB" }]

/-- A ledger holding two ordinary expenses for `Продукты`. -/
def cexLedgerTwo : List Txn :=
  [{ date := 0, typ := "Расход", category := "Продукты", amount := -100,
     description := "a", budget := 0, currency := "RUB" },
   { date := 1, typ := "Расход", category := "Продукты", amount := -50,
     description := "b", budget := 0, currency := "RUB" }]

/-- A session state with a non-empty ledger slot. -/
def cexSession : SessionState :=
  { transactions_data := .list [.str "old"], goals_data := .list [],
    default_currency := .str "RUB" }

/-- Valid JSON that has a `transactions` key but no `goals` key. -/
def cexImportPayload : PyVal := .dict [("transactions", .list [])]

/-- A goal list with two goals, used to witness `contribute`. -/
def witGoals : List Goal :=
  [{ name := "Car", target_amount := 10000, deadline := "2026-01-01", current_amount := 0 },
   { name := "Trip", target_amount := 500, deadline := "2026-06-01", current_amount := 20 }]

/-! ## Helper lemmas -/

theorem convert_amount_traced_fst (fetch : String → Option Rates) (amount : ℚ)
    (f t : String) :
    (convert_amount_traced fetch amount f t).1 = convert_amount fetch amount f t := by
  unfold convert_amount_traced convert_amount
  split <;> rfl

/-- Looking a key up in a mapping built by tabulating `f` over a key list. -/
theorem lookup_tabulate {α : Type} (f : String → α) :
    ∀ (l : List String) (k : String), k ∈ l →
      (l.map fun c => (c, f c)).lookup k = some (f k) := by
  intro l
  induction l with
  | nil => intro k hk; cases hk
  | cons h tl ih =>
      intro k hk
      by_cases hkh : k = h
      · subst hkh
        simp [List.lookup]
      · rcases List.mem_cons.mp hk with hk1 | hk1
        · exact absurd hk1 hkh
        · simpa [List.lookup, beq_eq_false_iff_ne.mpr hkh] using ih k hk1

/-- A successful association-list lookup returns one of the stored values. -/
theorem lookup_val_mem {α : Type} :
    ∀ (r : List (String × α)) (k : String) (v : α),
      r.lookup k = some v → ∃ p ∈ r, p.2 = v := by
  intro r
  induction r with
  | nil => intro k v h; cases h
  | cons p tl ih =>
      intro k v h
      rw [List.lookup] at h
      by_cases hk : k == p.1
      · refine ⟨p, List.mem_cons_self _ _, ?_⟩
        rw [hk] at h
        cases h
        rfl
      · rw [Bool.not_eq_true] at hk
        rw [hk] at h
        obtain ⟨q, hq, hqv⟩ := ih k v h
        exact ⟨q, List.mem_cons_of_mem _ hq, hqv⟩

/-- `rates.get(k, 0)` is non-negative whenever every stored rate is. -/
theorem dictGet_nonneg (r : Rates) (h : ∀ p ∈ r, (0 : ℚ) ≤ p.2) (k : String) :
    0 ≤ dictGet r k 0 := by
  unfold dictGet
  cases hl : r.lookup k with
  | none => exact le_refl 0
  | some v =>
      obtain ⟨p, hp, hpv⟩ := lookup_val_mem r k v hl
      exact hpv ▸ h p hp

/-- Whatever `get_exchange_rates` returns (fetched or fallback), every
individual rate is non-negative when the feed's rates are. -/
theorem get_exchange_rates_nonneg (fetch : String → Option Rates)
    (hr : ratesNonneg fetch) (base : String) :
    ∀ p ∈ (get_exchange_rates fetch base).1, (0 : ℚ) ≤ p.2 := by
  unfold get_exchange_rates
  cases hf : fetch base with
  | some r => exact hr base r hf
  | none =>
      intro p hp
      simp only [List.mem_map] at hp
      obtain ⟨c, _, rfl⟩ := hp
      dsimp only
      split <;> norm_num

/-- Converting a non-negative amount never produces a negative one (the
rate used is a stored rate or the defaults 0 and 1). -/
theorem convert_amount_nonneg (fetch : String → Option Rates)
    (hr : ratesNonneg fetch) (a : ℚ) (ha : 0 ≤ a) (f t : String) :
    0 ≤ convert_amount fetch a f t := by
  unfold convert_amount
  split
  · exact ha
  · exact mul_nonneg ha
      (dictGet_nonneg _ (get_exchange_rates_nonneg fetch hr f) t)

/-! ## Claim theorems -/

/-- C9.  `convert_amount(a, X, X) = a` for every amount and currency, and
the result does not depend on the fetch environment at all — the identity
branch returns before `get_exchange_rates` is reached, which
`convert_amount_traced` makes explicit: its call count is 0 there. -/
theorem convert_amount_identity (fetch : String → Option Rates) (a : ℚ) (x : String) :
    convert_amount fetch a x x = a ∧ (convert_amount_traced fetch a x x).2 = 0 := by
  constructor <;> simp [convert_amount, convert_amount_traced]

/-- C7.  When the fetch fails for a supported base currency, the returned
table maps the base to 1.0 and every other supported currency to 0.0, and
the failure was reported via `st.error` (second component `true`) while
the function still returned a table instead of propagating the error. -/
theorem get_exchange_rates_failure (fetch : String → Option Rates) (base : String)
    (hmem : base ∈ CURRENCIES) (hfail : fetch base = none) :
    (get_exchange_rates fetch base).2 = true ∧
    dictGet (get_exchange_rates fetch base).1 base 0 = 1 ∧
    ∀ c ∈ CURRENCIES, c ≠ base → dictGet (get_exchange_rates fetch base).1 c 0 = 0 := by
  unfold get_exchange_rates
  rw [hfail]
  refine ⟨rfl, ?_, ?_⟩
  · unfold dictGet
    rw [lookup_tabulate _ CURRENCIES base hmem]
    simp
  · intro c hc hne
    unfold dictGet
    rw [lookup_tabulate _ CURRENCIES c hc]
    simp [hne]

/-- Witness for C7 at base `"USD"` with an always-failing fetch. -/
theorem get_exchange_rates_failure_witness :
    (get_exchange_rates (fun _ => none) "USD").2 = true ∧
    dictGet (get_exchange_rates (fun _ => none) "USD").1 "USD" 0 = 1 ∧
    ∀ c ∈ CURRENCIES, c ≠ "USD" →
      dictGet (get_exchange_rates (fun _ => none) "USD").1 c 0 = 0 :=
  get_exchange_rates_failure (fun _ => none) "USD" (by decide) rfl

/-- C10.  `convert_amount` is total for distinct currencies: a missing
entry for the target makes `rates.get(to_currency, 0)` yield 0, so the
result is `a * 0 = 0` rather than a lookup error; in particular after a
fetch failure every supported target other than the base converts to 0. -/
theorem convert_amount_total (fetch : String → Option Rates) (a : ℚ) (f t : String) :
    (t ≠ f → (get_exchange_rates fetch f).1.lookup t = none →
      convert_amount fetch a f t = 0) ∧
    (fetch f = none → t ∈ CURRENCIES → t ≠ f → convert_amount fetch a f t = 0) := by
  constructor
  · intro hne hmiss
    unfold convert_amount
    rw [if_neg (fun h => hne h.symm)]
    unfold dictGet
    rw [hmiss]
    ring
  · intro hfail hmem hne
    unfold convert_amount
    rw [if_neg (fun h => hne h.symm)]
    unfold get_exchange_rates
    rw [hfail]
    unfold dictGet
    rw [lookup_tabulate _ CURRENCIES t hmem]
    simp [hne]

/-- Witness for C10: with a failing fetch, 5 RUB converts to 0 USD. -/
theorem convert_amount_total_witness :
    convert_amount (fun _ => none) 5 "RUB" "USD" = 0 :=
  (convert_amount_total (fun _ => none) 5 "RUB" "USD").2 rfl (by decide) (by decide)

/-- Every entry of `natDigits n` is a decimal digit. -/
theorem natDigits_lt (n : Nat) : ∀ d ∈ natDigits n, d < 10 := by
  induction n using natDigits.induct with
  | case1 n h =>
      intro d hd
      rw [natDigits, dif_pos h] at hd
      rw [List.mem_singleton] at hd
      omega
  | case2 n h ih =>
      intro d hd
      rw [natDigits, dif_neg h] at hd
      rcases List.mem_cons.mp hd with h1 | h1
      · subst h1
        exact Nat.mod_lt _ (by omega)
      · exact ih d h1

/-- `group3` only ever adds comma characters. -/
theorem group3_mem : ∀ (l : List Char), ∀ c ∈ group3 l, c ∈ l ∨ c = ',' := by
  intro l
  induction l using group3.induct with
  | case1 a b c d rest ih =>
      intro x hx
      rw [group3] at hx
      simp only [List.mem_cons] at hx ⊢
      rcases hx with h | h | h | h | h
      · exact Or.inl (Or.inl h)
      · exact Or.inl (Or.inr (Or.inl h))
      · exact Or.inl (Or.inr (Or.inr (Or.inl h)))
      · exact Or.inr h
      · rcases ih x (by simpa using h) with h2 | h2
        · exact Or.inl (Or.inr (Or.inr (Or.inr (by simpa using h2))))
        · exact Or.inr h2
  | case2 l h =>
      intro x hx
      rw [group3] at hx
      · exact Or.inl hx
      · exact h

/-- The rendering of a digit below 10 is a decimal digit character. -/
theorem pyDigitChar_isDigit (d : Nat) (h : d < 10) : (pyDigitChar d).isDigit := by
  interval_cases d <;> decide

/-- Every character of `f"{n:,}"` is a digit or a comma. -/
theorem groupThousands_chars (n : Nat) :
    ∀ ch ∈ (groupThousands n).toList, ch.isDigit ∨ ch = ',' := by
  intro ch hch
  have hch2 : ch ∈ group3 ((natDigits n).map pyDigitChar) := by
    have : (groupThousands n).toList = (group3 ((natDigits n).map pyDigitChar)).reverse := rfl
    rw [this, List.mem_reverse] at hch
    exact hch
  rcases group3_mem _ ch hch2 with h | h
  · obtain ⟨d, hd, rfl⟩ := List.mem_map.mp h
    exact Or.inl (pyDigitChar_isDigit d (natDigits_lt n d hd))
  · exact Or.inr h

/-- Every character of `f"{i:,}"` is a digit, a comma or a minus sign. -/
theorem intComma_chars (i : Int) :
    ∀ ch ∈ (intComma i).toList, ch.isDigit ∨ ch = ',' ∨ ch = '-' := by
  intro ch hch
  unfold intComma at hch
  rw [show ∀ s t : String, (s ++ t).toList = s.toList ++ t.toList from fun s t => rfl] at hch
  rcases List.mem_append.mp hch with h | h
  · split at h
    · rw [show ("-" : String).toList = ['-'] from rfl, List.mem_singleton] at h
      exact Or.inr (Or.inr h)
    · cases h
  · rcases groupThousands_chars i.natAbs ch h with h2 | h2
    · exact Or.inl h2
    · exact Or.inr (Or.inl h2)

/-- The two-digit fraction block really is two decimal digits. -/
theorem twoFrac_spec (n : Nat) (h : n < 100) :
    (twoFrac n).length = 2 ∧ ∀ ch ∈ (twoFrac n).toList, ch.isDigit := by
  refine ⟨rfl, ?_⟩
  intro ch hch
  rw [show (twoFrac n).toList = [pyDigitChar (n / 10), pyDigitChar (n % 10)] from rfl] at hch
  rcases List.mem_cons.mp hch with h1 | h1
  · exact h1 ▸ pyDigitChar_isDigit _ (by omega)
  · rw [List.mem_singleton] at h1
    exact h1 ▸ pyDigitChar_isDigit _ (by omega)

/-- `f"{q:,.2f}"` splits as integer part, point, and exactly two decimal
digits; the integer part holds only digits, commas and a sign. -/
theorem fixed2_shape (q : ℚ) :
    ∃ ip f, fixed2 q = ip ++ "." ++ f ∧ f.length = 2 ∧
      (∀ ch ∈ f.toList, ch.isDigit) ∧
      ∀ ch ∈ ip.toList, ch.isDigit ∨ ch = ',' ∨ ch = '-' := by
  refine ⟨(if q < 0 then "-" else "") ++
            groupThousands (((round (|q| * 100) : ℤ).toNat) / 100),
          twoFrac (((round (|q| * 100) : ℤ).toNat) % 100), rfl, ?_, ?_, ?_⟩
  · exact (twoFrac_spec _ (Nat.mod_lt _ (by omega))).1
  · exact (twoFrac_spec _ (Nat.mod_lt _ (by omega))).2
  · intro ch hch
    rw [show ∀ s t : String, (s ++ t).toList = s.toList ++ t.toList from fun s t => rfl] at hch
    rcases List.mem_append.mp hch with h | h
    · split at h
      · rw [show ("-" : String).toList = ['-'] from rfl, List.mem_singleton] at h
        exact Or.inr (Or.inr h)
      · cases h
    · rcases groupThousands_chars _ ch h with h2 | h2
      · exact Or.inl h2
      · exact Or.inr (Or.inl h2)

/-- `listModify` preserves length. -/
theorem listModify_length {α : Type} (f : α → α) :
    ∀ (i : Nat) (l : List α), (listModify f i l).length = l.length := by
  intro i l
  induction l generalizing i with
  | nil => cases i <;> rfl
  | cons x xs ih =>
      cases i with
      | zero => rfl
      | succ n => simpa [listModify] using ih n

/-- The modified position holds `f` of the old element. -/
theorem listModify_get_eq {α : Type} (f : α → α) :
    ∀ (i : Nat) (l : List α), (listModify f i l).get? i = (l.get? i).map f := by
  intro i l
  induction l generalizing i with
  | nil => cases i <;> rfl
  | cons x xs ih =>
      cases i with
      | zero => rfl
      | succ n => simpa [listModify] using ih n

/-- Every other position is untouched by `listModify`. -/
theorem listModify_get_ne {α : Type} (f : α → α) :
    ∀ (i j : Nat), j ≠ i → ∀ (l : List α), (listModify f i l).get? j = l.get? j := by
  intro i j hne l
  induction l generalizing i j with
  | nil => cases i <;> rfl
  | cons x xs ih =>
      cases i with
      | zero =>
          cases j with
          | zero => exact absurd rfl hne
          | succ m => rfl
      | succ n =>
          cases j with
          | zero => rfl
          | succ m => simpa [listModify] using ih n m (fun hmn => hne (by omega))

/-- An element of the modified list is an old element or `f` of one. -/
theorem mem_listModify {α : Type} (f : α → α) :
    ∀ (i : Nat) (l : List α) (x : α),
      x ∈ listModify f i l → x ∈ l ∨ ∃ y ∈ l, x = f y := by
  intro i l
  induction l generalizing i with
  | nil => intro x hx; cases i <;> cases hx
  | cons z zs ih =>
      intro x hx
      cases i with
      | zero =>
          rcases List.mem_cons.mp hx with h | h
          · exact Or.inr ⟨z, List.mem_cons_self _ _, h⟩
          · exact Or.inl (List.mem_cons_of_mem _ h)
      | succ n =>
          rcases List.mem_cons.mp hx with h | h
          · exact Or.inl (h ▸ List.mem_cons_self _ _)
          · rcases ih n x h with h2 | ⟨y, hy, hxy⟩
            · exact Or.inl (List.mem_cons_of_mem _ h2)
            · exact Or.inr ⟨y, List.mem_cons_of_mem _ hy, hxy⟩

/-- C8.  For the configured no-subunit currency (`VND`, the source's whole
list) the rendered number is a thousands-grouped integer — every character
a digit, comma or sign, so no decimal point and no fractional digits — and
for every other currency the rendering is integer part, decimal point,
exactly two decimal digits; in both cases the configured symbol
(`CURRENCY_SYMBOLS`, falling back to the code itself) is appended after a
space. -/
theorem format_amount_spec (a : ℚ) (c : String) :
    (c = "VND" →
      format_amount a c = intComma (pyInt a) ++ " " ++ dictGet CURRENCY_SYMBOLS c c ∧
      ∀ ch ∈ (intComma (pyInt a)).toList,
        (ch.isDigit ∨ ch = ',' ∨ ch = '-') ∧ ch ≠ '.') ∧
    (c ≠ "VND" →
      ∃ ip f, format_amount a c = ip ++ "." ++ f ++ " " ++ dictGet CURRENCY_SYMBOLS c c ∧
        f.length = 2 ∧ (∀ ch ∈ f.toList, ch.isDigit) ∧
        ∀ ch ∈ ip.toList, (ch.isDigit ∨ ch = ',' ∨ ch = '-') ∧ ch ≠ '.') := by
  constructor
  · intro hc
    subst hc
    refine ⟨by rw [format_amount, if_pos rfl], ?_⟩
    intro ch hch
    refine ⟨intComma_chars _ ch hch, ?_⟩
    rcases intComma_chars _ ch hch with h | h | h
    · intro he
      subst he
      simp [Char.isDigit] at h
    · subst h; decide
    · subst h; decide
  · intro hc
    obtain ⟨ip, f, hf, hlen, hdig, hip⟩ := fixed2_shape a
    refine ⟨ip, f, ?_, hlen, hdig, ?_⟩
    · rw [format_amount, if_neg hc, hf]
    · intro ch hch
      refine ⟨hip ch hch, ?_⟩
      rcases hip ch hch with h | h | h
      · intro he
        subst he
        simp [Char.isDigit] at h
      · subst h; decide
      · subst h; decide

/-- When no row of the category is present, `set_budget` appends the one
synthetic budget row. -/
theorem set_budget_of_no_match (now : Nat) (dc cat : String) (amt : ℚ)
    (txns : List Txn) (hall : ∀ t ∈ txns, t.category ≠ cat) :
    set_budget now dc cat amt txns =
      txns ++ [{ date := now, typ := "Расход", category := cat, amount := 0,
                 description := "Установка бюджета", budget := amt,
                 currency := dc }] := by
  have hany : txns.any (fun t => t.category == cat) = false := by
    rw [List.any_eq_false]
    intro t ht
    simpa using hall t ht
  rw [set_budget, if_neg (by rw [hany]; exact Bool.false_ne_true)]

/-- C2 counterexample.  On a ledger holding one ordinary expense for
`Продукты` (signed_amount −200, so *no* zero-amount budget row exists),
the claim predicts a fresh synthetic budget row with signed_amount 0 is
appended.  The code instead patches the expense row in place: the result
is the single original row with its budget overwritten, and no row with
signed_amount 0 exists at all — the scan keys on the category alone. -/
theorem set_budget_counterexample :
    set_budget 1 "RUB" "Продукты" 500 cexLedgerOne =
      [{ date := 0, typ := "Расход", category := "Продукты", amount := -200,
         description := "x", budget := 500, currency := "RUB" }] ∧
    ¬ ∃ t ∈ set_budget 1 "RUB" "Продукты" 500 cexLedgerOne, t.amount = 0 := by
  constructor
  · decide
  · decide

/-- C2 amended.  `set_budget` scans for *any* row of the category
(regardless of its signed amount); if at least one exists it overwrites the
budget field of every such row and appends nothing, otherwise it appends
exactly one synthetic budget row dated now with signed_amount 0 and
budget = amount. -/
theorem set_budget_amended (now : Nat) (dc cat : String) (amt : ℚ)
    (txns : List Txn) :
    ((∃ t ∈ txns, t.category = cat) →
      (set_budget now dc cat amt txns).length = txns.length ∧
      ∀ i : Nat, (set_budget now dc cat amt txns).get? i =
        (txns.get? i).map fun t =>
          if t.category = cat then { t with budget := amt } else t) ∧
    ((∀ t ∈ txns, t.category ≠ cat) →
      set_budget now dc cat amt txns =
        txns ++ [{ date := now, typ := "Расход", category := cat, amount := 0,
                   description := "Установка бюджета", budget := amt,
                   currency := dc }]) := by
  constructor
  · intro hex
    have hany : txns.any (fun t => t.category == cat) = true := by
      rw [List.any_eq_true]
      obtain ⟨t, ht, hcat⟩ := hex
      exact ⟨t, ht, beq_iff_eq.mpr hcat⟩
    rw [set_budget, if_pos hany]
    refine ⟨List.length_map _ _, ?_⟩
    intro i
    rw [List.get?_map]
    cases hti : txns.get? i with
    | none => rfl
    | some t =>
        simp only [Option.map_some']
        by_cases hc : t.category = cat
        · rw [if_pos (beq_iff_eq.mpr hc), if_pos hc]
        · rw [if_neg (by simpa using hc), if_neg hc]
  · exact set_budget_of_no_match now dc cat amt txns

/-- Witness for C2's amended theorem: patching in place on `cexLedgerOne`. -/
theorem set_budget_amended_witness :
    (set_budget 1 "RUB" "Продукты" 500 cexLedgerOne).get? 0 =
      (cexLedgerOne.get? 0).map fun t =>
        if t.category = "Продукты" then { t with budget := 500 } else t :=
  ((set_budget_amended 1 "RUB" "Продукты" 500 cexLedgerOne).1 (by decide)).2 0

/-- C3 counterexample.  Start from a ledger with two ordinary expenses for
`Продукты`.  `set_budget('Продукты', 100)` then `set_budget('Продукты', 200)`
stamps budget 200 onto *both* pre-existing rows, so two rows of the
category carry a non-zero budget afterwards — not exactly one. -/
theorem set_budget_twice_counterexample :
    ((set_budget 3 "RUB" "Продукты" 200
        (set_budget 2 "RUB" "Продукты" 100 cexLedgerTwo)).countP
      fun t => decide (t.category = "Продукты" ∧ t.budget ≠ 0)) = 2 := by
  decide

/-- C3 amended.  When the ledger holds *no* row of category `c` to begin
with, `set_budget(c, a1)` then `set_budget(c, a2)` leaves exactly one row
of category `c` — the synthetic budget row appended by the first call,
dated at the first call — and its budget field is `a2`. -/
theorem set_budget_twice_amended (now1 now2 : Nat) (dc c : String) (a1 a2 : ℚ)
    (txns : List Txn) (h : ∀ t ∈ txns, t.category ≠ c) :
    (set_budget now2 dc c a2 (set_budget now1 dc c a1 txns)).filter
        (fun t => t.category == c) =
      [{ date := now1, typ := "Расход", category := c, amount := 0,
         description := "Установка бюджета", budget := a2, currency := dc }] := by
  have h1 : set_budget now1 dc c a1 txns =
      txns ++ [{ date := now1, typ := "Расход", category := c, amount := 0,
                 description := "Установка бюджета", budget := a1,
                 currency := dc }] :=
    set_budget_of_no_match now1 dc c a1 txns h
  set synth1 : Txn :=
    { date := now1, typ := "Расход", category := c, amount := 0,
      description := "Установка бюджета", budget := a1, currency := dc } with hsynth
  have hany : (txns ++ [synth1]).any (fun t => t.category == c) = true := by
    rw [List.any_eq_true]
    exact ⟨synth1, by simp, by simp [hsynth]⟩
  rw [h1, set_budget, if_pos hany, List.map_append, List.filter_append]
  have hleft : ((txns.map fun t =>
      if t.category == c then { t with budget := a2 } else t).filter
        (fun t => t.category == c)) = [] := by
    rw [List.filter_eq_nil]
    intro b hb
    obtain ⟨t, ht, rfl⟩ := List.mem_map.mp hb
    rw [if_neg (by simpa using h t ht)]
    simpa using h t ht
  rw [hleft]
  simp [hsynth]

/-- Witness for C3's amended theorem on the empty ledger. -/
theorem set_budget_twice_amended_witness :
    (set_budget 3 "RUB" "Продукты" 200
        (set_budget 2 "RUB" "Продукты" 100 ([] : List Txn))).filter
        (fun t => t.category == "Продукты") =
      [{ date := 2, typ := "Расход", category := "Продукты", amount := 0,
         description := "Установка бюджета", budget := 200, currency := "RUB" }] :=
  set_budget_twice_amended 2 3 "RUB" "Продукты" 100 200 [] (by decide)

/-- C4 counterexample.  From the empty ledger — on which the strict sign
invariant holds vacuously — `set_budget` produces a row of kind `Расход`
whose signed_amount is 0, which is not negative: the strict reading of
"signed_amount's sign matches kind" is violated by every synthetic budget
row the system itself creates. -/
theorem sign_invariant_counterexample :
    ∃ t ∈ set_budget 0 "RUB" "Продукты" 500 ([] : List Txn),
      t.typ = "Расход" ∧ ¬ t.amount < 0 := by
  decide

/-- The single new or rewritten row of the add/edit handlers satisfies the
non-strict sign rule whenever the entered (pre-sign) amount is
non-negative. -/
theorem signOk_signed_row (s : String) (fa : ℚ) (hfa : 0 ≤ fa)
    (d : Nat) (cat de cur : String) (b : ℚ) :
    signOk { date := d, typ := s, category := cat,
             amount := if s = "Доход" then fa else -fa,
             description := de, budget := b, currency := cur } := by
  unfold signOk
  refine ⟨fun hs => ?_, fun hs => ?_⟩
  · dsimp only at hs ⊢
    rw [if_pos hs]
    exact hfa
  · dsimp only at hs ⊢
    have hne : s ≠ "Доход" := by
      rw [hs]
      decide
    rw [if_neg hne]
    linarith

/-- C4 amended.  The invariant that every ledger state actually maintains
is the non-strict sign rule `signOk`: income rows are ≥ 0 and expense rows
are ≤ 0 (zero is attainable — synthetic budget rows and zero-amount
entries).  Each state-mutating operation preserves it, given what the UI
already enforces at the call sites: entered amounts are non-negative
(`min_value=0.0` on every number input) and rate tables are non-negative. -/
theorem sign_invariant_amended (fetch : String → Option Rates) (dc : String)
    (txns : List Txn) (hinv : ∀ t ∈ txns, signOk t)
    (hrates : ratesNonneg fetch) :
    (∀ (date : Nat) (ttype cat cur : String) (amt : ℚ) (desc : String), 0 ≤ amt →
      ∀ t ∈ add_transaction fetch dc date ttype cat cur amt desc txns, signOk t) ∧
    (∀ (idx ed : Nat) (ety ecat ecur : String) (eamt : ℚ) (edesc : String), 0 ≤ eamt →
      ∀ t ∈ save_edited_transaction fetch dc idx ed ety ecat ecur eamt edesc txns,
        signOk t) ∧
    (∀ (now : Nat) (cat : String) (bamt : ℚ),
      ∀ t ∈ set_budget now dc cat bamt txns, signOk t) ∧
    (∀ (now idx : Nat) (a : ℚ) (goals : List Goal), 0 ≤ a →
      ∀ t ∈ (contribute now dc idx a goals txns).2, signOk t) := by
  refine ⟨?_, ?_, ?_, ?_⟩
  · intro date ttype cat cur amt desc hamt t ht
    rcases List.mem_append.mp ht with h | h
    · exact hinv t h
    · rw [List.mem_singleton] at h
      subst h
      refine signOk_signed_row ttype _ ?_ _ _ _ _ _
      split
      · exact hamt
      · exact convert_amount_nonneg fetch hrates amt hamt cur dc
  · intro idx ed ety ecat ecur eamt edesc heamt t ht
    rcases mem_listModify _ idx txns t ht with h | ⟨y, hy, rfl⟩
    · exact hinv t h
    · refine signOk_signed_row ety _ ?_ _ _ _ _ _
      split
      · exact heamt
      · exact convert_amount_nonneg fetch hrates eamt heamt ecur dc
  · intro now cat bamt t ht
    rw [set_budget] at ht
    split at ht
    · obtain ⟨y, hy, rfl⟩ := List.mem_map.mp ht
      obtain ⟨hyi, hye⟩ := hinv y hy
      split
      · exact ⟨hyi, hye⟩
      · exact ⟨hyi, hye⟩
    · rcases List.mem_append.mp ht with h | h
      · exact hinv t h
      · rw [List.mem_singleton] at h
        subst h
        exact ⟨fun _ => le_refl 0, fun _ => le_refl 0⟩
  · intro now idx a goals ha t ht
    rcases List.mem_append.mp ht with h | h
    · exact hinv t h
    · rw [List.mem_singleton] at h
      subst h
      unfold signOk
      refine ⟨fun hs => ?_, fun _ => ?_⟩
      · dsimp only at hs
        exact absurd hs (by decide)
      · dsimp only
        linarith

/-- Witness for C4's amended theorem: the synthetic budget row that the
counterexample exhibits does satisfy the non-strict rule. -/
theorem sign_invariant_amended_witness :
    signOk { date := 5, typ := "Расход", category := "Продукты", amount := 0,
             description := "Установка бюджета", budget := 500,
             currency := "RUB" } :=
  (sign_invariant_amended (fun _ => none) "RUB" []
      (fun t ht => absurd ht (List.not_mem_nil t))
      (fun _ r h => nomatch h)).2.2.1 5 "Продукты" 500 _ (by decide)

/-- C6.  For an in-range goal index, `contribute` bumps exactly that
goal's `current_amount` by the contribution (its other fields kept),
leaves every other goal untouched, and appends exactly one expense row to
the ledger: signed_amount = −a, category `Накопления` (savings), budget 0,
in the default currency. -/
theorem contribute_spec (now : Nat) (dc : String) (idx : Nat) (a : ℚ)
    (goals : List Goal) (txns : List Txn) (h : idx < goals.length) :
    ((contribute now dc idx a goals txns).1).length = goals.length ∧
    (∀ j : Nat, j ≠ idx →
      ((contribute now dc idx a goals txns).1).get? j = goals.get? j) ∧
    ∃ g, goals.get? idx = some g ∧
      ((contribute now dc idx a goals txns).1).get? idx =
        some { g with current_amount := g.current_amount + a } ∧
      (contribute now dc idx a goals txns).2 =
        txns ++ [{ date := now, typ := "Расход", category := "Накопления",
                   amount := -a, description := "Вклад в цель: " ++ g.name,
                   budget := 0, currency := dc }] := by
  obtain ⟨g, hg⟩ : ∃ g, goals.get? idx = some g :=
    ⟨goals.get ⟨idx, h⟩, List.get?_eq_get h⟩
  refine ⟨listModify_length _ idx goals, ?_, g, hg, ?_, ?_⟩
  · intro j hj
    exact listModify_get_ne _ idx j hj goals
  · rw [show ((contribute now dc idx a goals txns).1) =
        listModify (fun g => { g with current_amount := g.current_amount + a })
          idx goals from rfl]
    rw [listModify_get_eq, hg]
    rfl
  · rw [show (contribute now dc idx a goals txns).2 =
        txns ++ [{ date := now, typ := "Расход", category := "Накопления",
                   amount := -a,
                   description := "Вклад в цель: " ++
                     (match goals.get? idx with
                      | some g => g.name
                      | none => ""),
                   budget := 0, currency := dc }] from rfl]
    rw [hg]

/-- Witness for C6: contributing 2500 to the first of two goals. -/
theorem contribute_spec_witness :
    ((contribute 9 "RUB" 0 2500 witGoals []).1).length = witGoals.length ∧
    (∀ j : Nat, j ≠ 0 →
      ((contribute 9 "RUB" 0 2500 witGoals []).1).get? j = witGoals.get? j) ∧
    ∃ g, witGoals.get? 0 = some g ∧
      ((contribute 9 "RUB" 0 2500 witGoals []).1).get? 0 =
        some { g with current_amount := g.current_amount + 2500 } ∧
      (contribute 9 "RUB" 0 2500 witGoals []).2 =
        [] ++ [{ date := 9, typ := "Расход", category := "Накопления",
                 amount := -2500, description := "Вклад в цель: " ++ g.name,
                 budget := 0, currency := "RUB" }] :=
  contribute_spec 9 "RUB" 0 2500 witGoals [] (by decide)

/-- Witness for C8: both branches at a concrete amount. -/
theorem format_amount_spec_witness :
    (format_amount 1234 "VND" =
        intComma (pyInt 1234) ++ " " ++ dictGet CURRENCY_SYMBOLS "VND" "VND" ∧
      ∀ ch ∈ (intComma (pyInt 1234)).toList,
        (ch.isDigit ∨ ch = ',' ∨ ch = '-') ∧ ch ≠ '.') ∧
    (∃ ip f, format_amount 1234 "USD" =
        ip ++ "." ++ f ++ " " ++ dictGet CURRENCY_SYMBOLS "USD" "USD" ∧
      f.length = 2 ∧ (∀ ch ∈ f.toList, ch.isDigit) ∧
      ∀ ch ∈ ip.toList, (ch.isDigit ∨ ch = ',' ∨ ch = '-') ∧ ch ≠ '.') :=
  ⟨(format_amount_spec 1234 "VND").1 rfl, (format_amount_spec 1234 "USD").2 (by decide)⟩

/-- `jsonCycle` on a list value maps over the elements. -/
theorem jsonCycle_list (xs : List PyVal) :
    jsonCycle (.list xs) = .list (xs.map jsonCycle) := by
  simp [jsonCycle]

/-- `jsonCycle` on a dict value maps over the field values. -/
theorem jsonCycle_dict (fs : List (String × PyVal)) :
    jsonCycle (.dict fs) = .dict (fs.map fun p => (p.1, jsonCycle p.2)) := by
  rw [jsonCycle]
  rw [List.attach_map_coe fs (fun p => (p.1, jsonCycle p.2))]

/-- `normalizeDates` on a list value maps over the elements. -/
theorem normalizeDates_list (xs : List PyVal) :
    normalizeDates (.list xs) = .list (xs.map normalizeDates) := by
  simp [normalizeDates]

/-- `normalizeDates` on a dict value maps over the field values. -/
theorem normalizeDates_dict (fs : List (String × PyVal)) :
    normalizeDates (.dict fs) = .dict (fs.map fun p => (p.1, normalizeDates p.2)) := by
  rw [normalizeDates]
  rw [List.attach_map_coe fs (fun p => (p.1, normalizeDates p.2))]

/-- Serialising then re-parsing is invisible under date normalisation: the
only thing `json.dumps(..., default=str)` changes is turning timestamps
into their string form, which `normalizeDates` parses back. -/
theorem normalizeDates_jsonCycle (v : PyVal) :
    normalizeDates (jsonCycle v) = normalizeDates v := by
  induction v using jsonCycle.induct with
  | case1 t => simp [jsonCycle, normalizeDates]
  | case2 xs ih =>
      rw [jsonCycle_list, normalizeDates_list, normalizeDates_list, List.map_map]
      exact congrArg PyVal.list (List.map_congr_left fun x hx => ih ⟨x, hx⟩)
  | case3 fs ih =>
      rw [jsonCycle_dict, normalizeDates_dict, normalizeDates_dict, List.map_map]
      refine congrArg PyVal.dict (List.map_congr_left fun p hp => ?_)
      simp [ih ⟨p, hp⟩]
  | case4 v h1 h2 h3 =>
      cases v <;> simp_all <;> simp [jsonCycle, normalizeDates]

/-- C5.  Exporting and re-importing succeeds and leaves all three session
slots observably identical: the ledger's stored dates come back as their
string renderings, which the app's own read path (`pd.to_datetime` in
`load_data`, modelled by `normalizeDates`) maps back to the original
timestamps; every JSON-native value is bit-for-bit unchanged. -/
theorem export_import_roundtrip (s : SessionState) :
    (import_all_data (some (jsonCycle (export_all_data s))) s).2 = true ∧
    normalizeDates
        ((import_all_data (some (jsonCycle (export_all_data s))) s).1).transactions_data =
      normalizeDates s.transactions_data ∧
    normalizeDates
        ((import_all_data (some (jsonCycle (export_all_data s))) s).1).goals_data =
      normalizeDates s.goals_data ∧
    normalizeDates
        ((import_all_data (some (jsonCycle (export_all_data s))) s).1).default_currency =
      normalizeDates s.default_currency := by
  have hexp : jsonCycle (export_all_data s) =
      PyVal.dict [("transactions", jsonCycle s.transactions_data),
                  ("goals", jsonCycle s.goals_data),
                  ("settings", PyVal.dict [("default_currency",
                      jsonCycle s.default_currency)])] := by
    rw [export_all_data, jsonCycle_dict]
    simp [jsonCycle_dict]
  rw [hexp]
  refine ⟨rfl, ?_, ?_, ?_⟩ <;>
    simpa using normalizeDates_jsonCycle _

/-- C1 counterexample.  The payload `{"transactions": []}` is well-formed
JSON that lacks the required `goals` key, so the claim demands the
pre-existing state be left completely unchanged; but the `try` body has
already assigned the ledger slot before the `goals` lookup raises, so
`import_all_data` returns `False` *and* the ledger is replaced. -/
theorem import_all_data_counterexample :
    (import_all_data (some cexImportPayload) cexSession).2 = false ∧
    (import_all_data (some cexImportPayload) cexSession).1.transactions_data ≠
      cexSession.transactions_data := by
  refine ⟨rfl, ?_⟩
  have h1 : (import_all_data (some cexImportPayload) cexSession).1.transactions_data =
      PyVal.list [] := rfl
  have h2 : cexSession.transactions_data = PyVal.list [PyVal.str "old"] := rfl
  rw [h1, h2]
  intro h
  injection h with h3
  exact List.noConfusion h3

/-- C1 amended.  `import_all_data` either succeeds and wholesale-replaces
ledger, goals and default currency with the parsed contents, or returns a
boolean failure signal; malformed JSON or a missing `transactions` key
leaves the state completely unchanged, and the default currency is never
changed on failure — but the assignments are applied in order until the
first missing key, so partial application occurs: with `transactions`
present and `goals` missing, the ledger alone is replaced; with
`transactions` and `goals` present but `settings` or
`settings.default_currency` missing, both the ledger and the goals are
replaced; in every such case `False` is returned. -/
theorem import_all_data_amended (j : Option PyVal) (s : SessionState) :
    (j = none → import_all_data j s = (s, false)) ∧
    (∀ d, j = some d → dictGetPy d "transactions" = none →
      import_all_data j s = (s, false)) ∧
    ((import_all_data j s).2 = false →
      (import_all_data j s).1.default_currency = s.default_currency) ∧
    (∀ d t, j = some d → dictGetPy d "transactions" = some t →
      dictGetPy d "goals" = none →
      import_all_data j s = ({ s with transactions_data := t }, false)) ∧
    (∀ d t g, j = some d → dictGetPy d "transactions" = some t →
      dictGetPy d "goals" = some g → dictGetPy d "settings" = none →
      import_all_data j s =
        ({ s with transactions_data := t, goals_data := g }, false)) ∧
    (∀ d t g sett, j = some d → dictGetPy d "transactions" = some t →
      dictGetPy d "goals" = some g → dictGetPy d "settings" = some sett →
      dictGetPy sett "default_currency" = none →
      import_all_data j s =
        ({ s with transactions_data := t, goals_data := g }, false)) ∧
    (∀ d t g sett dc, j = some d → dictGetPy d "transactions" = some t →
      dictGetPy d "goals" = some g → dictGetPy d "settings" = some sett →
      dictGetPy sett "default_currency" = some dc →
      import_all_data j s =
        ({ transactions_data := t, goals_data := g, default_currency := dc },
         true)) := by
  refine ⟨?_, ?_, ?_, ?_, ?_, ?_, ?_⟩
  · intro hj
    subst hj
    rfl
  · intro d hj ht
    subst hj
    simp only [import_all_data, ht]
  · intro hfalse
    cases j with
    | none => rfl
    | some d =>
        simp only [import_all_data] at hfalse ⊢
        cases ht : dictGetPy d "transactions" with
        | none => simp only [ht]
        | some t =>
            simp only [ht] at hfalse ⊢
            cases hg : dictGetPy d "goals" with
            | none => simp only [hg]
            | some g =>
                simp only [hg] at hfalse ⊢
                cases hs : dictGetPy d "settings" with
                | none => simp only [hs]
                | some sett =>
                    simp only [hs] at hfalse ⊢
                    cases hdc : dictGetPy sett "default_currency" with
                    | none => simp only [hdc]
                    | some dc =>
                        simp only [hdc] at hfalse
                        cases hfalse
  · intro d t hj ht hg
    subst hj
    simp only [import_all_data, ht, hg]
  · intro d t g hj ht hg hs
    subst hj
    simp only [import_all_data, ht, hg, hs]
  · intro d t g sett hj ht hg hs hdc
    subst hj
    simp only [import_all_data, ht, hg, hs, hdc]
  · intro d t g sett dc hj ht hg hs hdc
    subst hj
    simp only [import_all_data, ht, hg, hs, hdc]

/-- Witness for C1's amended theorem: a complete payload restores all
three slots and succeeds. -/
theorem import_all_data_amended_witness :
    import_all_data
        (some (PyVal.dict [("transactions", PyVal.list []),
                           ("goals", PyVal.list []),
                           ("settings", PyVal.dict [("default_currency",
                               PyVal.str "USD")])]))
        cexSession =
      ({ transactions_data := PyVal.list [], goals_data := PyVal.list [],
         default_currency := PyVal.str "USD" }, true) :=
  (import_all_data_amended _ cexSession).2.2.2.2.2.2 _ _ _ _ _ rfl rfl rfl rfl rfl

end FinanceApp

